import Mathlib

/-!
Shallow embedding of the Page Session Manager of the hpc-web-platform
repository (the `SocketPage` helper defined in `common.js`, together with the
shared Socket.IO connection it manages), and proofs of the specified
properties of `on`, `emitWhenReady`, `poll`, `cleanup`, `onReconnect` and
`markStarted`.

Handlers (JavaScript closures) are opaque: a user callback is identified by a
natural number, and invoking it appends that number to a global trace.  The
single closure that `SocketPage` itself installs on the shared connection (the
`reconnect` listener reading `scope.started` and `scope._onReconnect`) is
modelled as a distinguished handler value.  The browser timer table, the
document visibility flag and the socket state are all part of one `World`
record; external occurrences (interval ticks, connect / disconnect /
reconnect signals, visibility changes) drive a step function on worlds.
-/

namespace HPCWeb

/-- A JavaScript handler value: either an opaque user callback (identified by
a number) or the reconnect-listener closure that `SocketPage` installs on the
shared connection at session creation. -/
inductive Handler where
  | user (id : Nat)
  | scopeReconnect
deriving DecidableEq, Repr

/-- One interval timer created by `setInterval(tick, ms)` inside
`scope.poll`: the tick closure captures the `visibleOnly` option and the
polled callback `fn`. -/
structure Timer where
  id : Nat
  ms : Nat
  visibleOnly : Bool
  fn : Handler
deriving DecidableEq, Repr

/-- The shared Socket.IO connection: its connected flag, the ordered list of
`on`-listeners (event name, handler), and the queue of callbacks registered
with `once('connect', fn)`. -/
structure Socket where
  connected : Bool
  handlers : List (String × Handler)
  onceConnect : List Handler
deriving DecidableEq, Repr

/-- The per-page session state built by `SocketPage(name)`: the tracked timer
handles, the tracked event-name-to-handler map (a JavaScript object, modelled
as an association list with unique keys in insertion order), the `started`
flag and the optional `_onReconnect` callback. -/
structure Scope where
  name : String
  timers : List Nat
  listeners : List (String × Handler)
  started : Bool
  reconnectCb : Option Nat
deriving DecidableEq, Repr

/-- The whole mutable state: shared socket, one page session, the browser
interval table, `document.hidden`, the next fresh interval id, and the trace
of user-callback invocations so far. -/
structure World where
  sock : Socket
  scope : Scope
  intervals : List Timer
  hidden : Bool
  nextTimerId : Nat
  trace : List Nat
deriving DecidableEq, Repr

/-- Property lookup `scope.listeners[event]` on the tracked listener map. -/
def lookupEv (l : List (String × Handler)) (ev : String) : Option Handler :=
  match l with
  | [] => none
  | p :: r => if p.1 = ev then some p.2 else lookupEv r ev

/-- Property assignment `scope.listeners[event] = handler`: replaces the
value of an existing key in place, otherwise appends the new key. -/
def setEv (l : List (String × Handler)) (ev : String) (h : Handler) :
    List (String × Handler) :=
  match l with
  | [] => [(ev, h)]
  | p :: r => if p.1 = ev then (ev, h) :: r else p :: setEv r ev h

/-- `socket.off(event, handler)`: removes every matching listener for that
event, including a pending `once`-registration for the same function (for the
`connect` event the once-queue is filtered too, as Socket.IO's emitter does). -/
def socketOff (s : Socket) (ev : String) (h : Handler) : Socket :=
  { s with
    handlers := s.handlers.filter (fun p => ! decide (p.1 = ev ∧ p.2 = h)),
    onceConnect :=
      if ev = "connect" then s.onceConnect.filter (fun x => ! decide (x = h))
      else s.onceConnect }

/-- `socket.off(event)` with no handler argument: removes every listener for
that event. -/
def socketOffAll (s : Socket) (ev : String) : Socket :=
  { s with
    handlers := s.handlers.filter (fun p => ! decide (p.1 = ev)),
    onceConnect := if ev = "connect" then [] else s.onceConnect }

/-- `socket.on(event, handler)`: appends a listener. -/
def socketOn (s : Socket) (ev : String) (h : Handler) : Socket :=
  { s with handlers := s.handlers ++ [(ev, h)] }

/-- `socket.once('connect', fn)`: queues a one-shot connect callback. -/
def socketOnce (s : Socket) (h : Handler) : Socket :=
  { s with onceConnect := s.onceConnect ++ [h] }

/-- What running a handler appends to the invocation trace.  A user callback
records its id; the session's reconnect-listener closure runs
`scope._onReconnect()` only when `scope.started` is set and a callback was
registered via `onReconnect`. -/
def emitOf (sc : Scope) (h : Handler) : List Nat :=
  match h with
  | .user m => [m]
  | .scopeReconnect =>
      if sc.started then
        match sc.reconnectCb with
        | some c => [c]
        | none => []
      else []

/-- Invoke one handler. -/
def invoke (w : World) (h : Handler) : World :=
  { w with trace := w.trace ++ emitOf w.scope h }

/-- Invoke a list of handlers in order. -/
def invokeAll (w : World) (hs : List Handler) : World :=
  hs.foldl invoke w

/-- Dispatch an event on the shared connection: every listener registered for
that event name fires, in registration order. -/
def fireEvent (w : World) (ev : String) : World :=
  invokeAll w
    (w.sock.handlers.filterMap (fun p => if p.1 = ev then some p.2 else none))

/-- The `connect` signal: the socket becomes connected, `connect` listeners
fire, and every queued `once('connect')` callback fires exactly once and is
removed from the queue. -/
def connectSignal (w : World) : World :=
  let w1 := { w with sock := { w.sock with connected := true, onceConnect := [] } }
  invokeAll (fireEvent w1 "connect") w.sock.onceConnect

/-- The `disconnect` signal: the socket is no longer connected and
`disconnect` listeners fire. -/
def disconnectSignal (w : World) : World :=
  fireEvent { w with sock := { w.sock with connected := false } } "disconnect"

/-- The `reconnect` signal: `reconnect` listeners fire. -/
def reconnectSignal (w : World) : World :=
  fireEvent w "reconnect"

/-- `SocketPage(name)`: builds a fresh scope and installs the session's
reconnect listener on the shared connection, after the (vacuous)
`socket.off('reconnect.' + name)` call. -/
def SocketPage (w : World) (name : String) : World :=
  let s1 := socketOffAll w.sock ("reconnect." ++ name)
  let s2 := socketOn s1 "reconnect" Handler.scopeReconnect
  { w with
    sock := s2,
    scope :=
      { name := name, timers := [], listeners := [], started := false,
        reconnectCb := none } }

/-- `scope.on(event, handler)`: if the session already tracks a handler for
this event, unsubscribe it from the shared connection first; then record and
subscribe the new handler. -/
def scopeOn (w : World) (ev : String) (h : Handler) : World :=
  let w1 :=
    match lookupEv w.scope.listeners ev with
    | some old => { w with sock := socketOff w.sock ev old }
    | none => w
  { w1 with
    sock := socketOn w1.sock ev h,
    scope := { w1.scope with listeners := setEv w1.scope.listeners ev h } }

/-- `scope.emitWhenReady(emitFn)`: run the callback now if the socket is
connected, otherwise defer it with `socket.once('connect', emitFn)`. -/
def emitWhenReady (w : World) (h : Handler) : World :=
  if w.sock.connected then invoke w h else { w with sock := socketOnce w.sock h }

/-- `scope.poll(ms, fn, {immediate, visibleOnly})`: optionally run `fn` once
via `emitWhenReady`, then create the interval timer and track its handle. -/
def poll (w : World) (ms : Nat) (fn : Handler) (immediate visibleOnly : Bool) :
    World :=
  let w1 := if immediate then emitWhenReady w fn else w
  { w1 with
    intervals := w1.intervals ++ [⟨w1.nextTimerId, ms, visibleOnly, fn⟩],
    nextTimerId := w1.nextTimerId + 1,
    scope := { w1.scope with timers := w1.scope.timers ++ [w1.nextTimerId] } }

/-- One firing of an interval timer: the tick closure runs `fn` unless
`visibleOnly` is set and the page is hidden.  A cleared timer (absent from
the interval table) does not fire. -/
def tick (w : World) (id : Nat) : World :=
  match w.intervals.find? (fun t => decide (t.id = id)) with
  | some t => if !t.visibleOnly || !w.hidden then invoke w t.fn else w
  | none => w

/-- `scope.timers.forEach(clearInterval)` followed by unsubscribing every
tracked listener: the `cleanup` teardown, factored so the listener fold can
be reasoned about separately. -/
def offEach (s : Socket) (l : List (String × Handler)) : Socket :=
  l.foldl (fun s p => socketOff s p.1 p.2) s

/-- `scope.cleanup()`: clear every tracked interval, empty the timer list,
unsubscribe every tracked event binding, empty the listener map. -/
def cleanup (w : World) : World :=
  let w1 :=
    { w with
      intervals := w.intervals.filter (fun t => ! decide (t.id ∈ w.scope.timers)),
      scope := { w.scope with timers := [] } }
  { w1 with
    sock := offEach w1.sock w1.scope.listeners,
    scope := { w1.scope with listeners := [] } }

/-- `scope.onReconnect(fn)`: records the reconnect callback. -/
def onReconnect (w : World) (c : Nat) : World :=
  { w with scope := { w.scope with reconnectCb := some c } }

/-- `scope.markStarted()`: flips the started flag. -/
def markStarted (w : World) : World :=
  { w with scope := { w.scope with started := true } }

/-- The method names assigned on the scope object by `SocketPage` in
`common.js` (lines 75-146): these are the operations a session provides. -/
def scopeMethods : List String :=
  ["on", "emitWhenReady", "poll", "cleanup", "onReconnect", "markStarted"]

/-- External occurrences that drive the embedded program: an interval tick,
the connection lifecycle signals, and a visibility change. -/
inductive Ev where
  | tick (id : Nat)
  | connect
  | disconnect
  | reconnect
  | setHidden (b : Bool)
deriving DecidableEq, Repr

/-- One external occurrence applied to the world. -/
def step (w : World) (e : Ev) : World :=
  match e with
  | .tick id => tick w id
  | .connect => connectSignal w
  | .disconnect => disconnectSignal w
  | .reconnect => reconnectSignal w
  | .setHidden b => { w with hidden := b }

/-- A sequence of external occurrences. -/
def run (w : World) (es : List Ev) : World :=
  es.foldl step w

/-- The freshly initialised shared connection, before any session exists. -/
def initSocket : Socket :=
  { connected := false, handlers := [], onceConnect := [] }

/-- The world at application load, before any `SocketPage` call. -/
def initWorld : World :=
  { sock := initSocket,
    scope :=
      { name := "", timers := [], listeners := [], started := false,
        reconnectCb := none },
    intervals := [], hidden := false, nextTimerId := 0, trace := [] }

/-- Number of occurrences of an element in a list (used to count invocations
of a given callback in the trace, and registrations in the once-queue). -/
def cnt {α : Type} [DecidableEq α] (a : α) : List α → Nat
  | [] => 0
  | x :: r => (if x = a then 1 else 0) + cnt a r

lemma cnt_nil {α : Type} [DecidableEq α] (a : α) : cnt a ([] : List α) = 0 := rfl

lemma cnt_cons {α : Type} [DecidableEq α] (a x : α) (r : List α) :
    cnt a (x :: r) = (if x = a then 1 else 0) + cnt a r := rfl

lemma cnt_append {α : Type} [DecidableEq α] (a : α) (l1 l2 : List α) :
    cnt a (l1 ++ l2) = cnt a l1 + cnt a l2 := by
  induction l1 with
  | nil => simp [cnt]
  | cons x r ih => simp [cnt_cons, ih]; omega

lemma cnt_eq_zero {α : Type} [DecidableEq α] {a : α} {l : List α} :
    cnt a l = 0 ↔ a ∉ l := by
  induction l with
  | nil => simp [cnt]
  | cons x r ih =>
    by_cases hx : x = a
    · subst hx; simp [cnt_cons]
    · simp [cnt_cons, hx, ih, Ne.symm hx]

lemma mem_of_cnt_one {α : Type} [DecidableEq α] {a : α} {l : List α}
    (h : cnt a l = 1) : a ∈ l := by
  by_contra hmem
  rw [← cnt_eq_zero] at hmem
  omega

lemma cnt_filter_keep {α : Type} [DecidableEq α] (a : α) (p : α → Bool)
    (l : List α) (hp : p a = true) : cnt a (l.filter p) = cnt a l := by
  induction l with
  | nil => rfl
  | cons x r ih =>
    by_cases hx : x = a
    · subst hx; simp [List.filter_cons, hp, cnt_cons, ih]
    · cases hpx : p x <;> simp [List.filter_cons, hpx, cnt_cons, hx, ih]

lemma find?_append_right {α : Type} (p : α → Bool) (l1 l2 : List α)
    (h : ∀ x ∈ l1, p x = false) :
    List.find? p (l1 ++ l2) = List.find? p l2 := by
  induction l1 with
  | nil => rfl
  | cons a r ih =>
    have ha := h a (List.mem_cons_self a r)
    simp only [List.cons_append, List.find?_cons, ha]
    exact ih (fun x hx => h x (List.mem_cons_of_mem a hx))

lemma filterMap_eventSel (hs : List (String × Handler)) (ev : String) :
    hs.filterMap (fun p => if p.1 = ev then some p.2 else none)
      = (hs.filter (fun p => decide (p.1 = ev))).map (fun p => p.2) := by
  induction hs with
  | nil => rfl
  | cons p r ih =>
    by_cases hp : p.1 = ev <;>
      simp [List.filterMap_cons, List.filter_cons, hp, ih]

lemma emitOf_congr (sc1 sc2 : Scope) (h : Handler)
    (h1 : sc1.started = sc2.started) (h2 : sc1.reconnectCb = sc2.reconnectCb) :
    emitOf sc1 h = emitOf sc2 h := by
  cases h <;> simp [emitOf, h1, h2]

lemma cnt_emitOf (sc : Scope) (n : Nat) (h : Handler)
    (hsc : sc.started = false ∨ sc.reconnectCb ≠ some n) :
    cnt n (emitOf sc h) = if h = Handler.user n then 1 else 0 := by
  cases h with
  | user m =>
    by_cases hm : m = n
    · subst hm; simp [emitOf, cnt]
    · simp [emitOf, cnt_cons, cnt_nil, hm]
  | scopeReconnect =>
    have hne : (Handler.scopeReconnect = Handler.user n) = False := by simp
    cases hst : sc.started with
    | false => simp [emitOf, hst, hne, cnt_nil]
    | true =>
      rcases hsc with hl | hr
      · rw [hst] at hl; exact absurd hl (by simp)
      · cases hcb : sc.reconnectCb with
        | none => simp [emitOf, hst, hcb, hne, cnt_nil]
        | some c =>
          have hc : c ≠ n := by intro he; exact hr (by rw [hcb, he])
          simp [emitOf, hst, hcb, hne, cnt_cons, cnt_nil, hc]

lemma invokeAll_cons (w : World) (h : Handler) (t : List Handler) :
    invokeAll w (h :: t) = invokeAll (invoke w h) t := rfl

lemma invokeAll_nil (w : World) : invokeAll w [] = w := rfl

lemma invoke_parts (w : World) (h : Handler) :
    (invoke w h).sock = w.sock ∧ (invoke w h).scope = w.scope
  ∧ (invoke w h).intervals = w.intervals ∧ (invoke w h).hidden = w.hidden
  ∧ (invoke w h).nextTimerId = w.nextTimerId := by
  simp [invoke]

lemma invokeAll_parts (w : World) (hs : List Handler) :
    (invokeAll w hs).sock = w.sock ∧ (invokeAll w hs).scope = w.scope
  ∧ (invokeAll w hs).intervals = w.intervals
  ∧ (invokeAll w hs).hidden = w.hidden
  ∧ (invokeAll w hs).nextTimerId = w.nextTimerId := by
  induction hs generalizing w with
  | nil => simp [invokeAll_nil]
  | cons h t ih =>
    rw [invokeAll_cons]
    have hi := invoke_parts w h
    have ht := ih (invoke w h)
    exact ⟨ht.1.trans hi.1, ht.2.1.trans hi.2.1, ht.2.2.1.trans hi.2.2.1,
           ht.2.2.2.1.trans hi.2.2.2.1, ht.2.2.2.2.trans hi.2.2.2.2⟩

lemma invokeAll_cnt (n : Nat) (hs : List Handler) (w : World)
    (hsc : w.scope.started = false ∨ w.scope.reconnectCb ≠ some n) :
    cnt n (invokeAll w hs).trace = cnt n w.trace + cnt (Handler.user n) hs := by
  induction hs generalizing w with
  | nil => simp [invokeAll_nil, cnt_nil]
  | cons h t ih =>
    rw [invokeAll_cons]
    have hsc2 : (invoke w h).scope.started = false
        ∨ (invoke w h).scope.reconnectCb ≠ some n := by
      rw [(invoke_parts w h).2.1]; exact hsc
    rw [ih (invoke w h) hsc2]
    have : cnt n (invoke w h).trace
        = cnt n w.trace + (if h = Handler.user n then 1 else 0) := by
      simp only [invoke, cnt_append]
      rw [cnt_emitOf w.scope n h hsc]
    rw [this, cnt_cons]
    omega

lemma fireEvent_parts (w : World) (ev : String) :
    (fireEvent w ev).sock = w.sock ∧ (fireEvent w ev).scope = w.scope
  ∧ (fireEvent w ev).intervals = w.intervals
  ∧ (fireEvent w ev).hidden = w.hidden
  ∧ (fireEvent w ev).nextTimerId = w.nextTimerId :=
  invokeAll_parts w _

lemma fireEvent_cnt (w : World) (ev : String) (n : Nat)
    (hsc : w.scope.started = false ∨ w.scope.reconnectCb ≠ some n)
    (hh : ∀ p ∈ w.sock.handlers, p.2 ≠ Handler.user n) :
    cnt n (fireEvent w ev).trace = cnt n w.trace := by
  rw [fireEvent, invokeAll_cnt n _ w hsc]
  have : Handler.user n
      ∉ w.sock.handlers.filterMap (fun p => if p.1 = ev then some p.2 else none) := by
    intro hmem
    rcases List.mem_filterMap.mp hmem with ⟨p, hp, hpe⟩
    by_cases he : p.1 = ev
    · simp only [he, if_pos rfl] at hpe
      exact hh p hp (Option.some.inj hpe)
    · simp [he] at hpe
  rw [cnt_eq_zero.mpr this]
  omega

lemma tick_parts (w : World) (id : Nat) :
    (tick w id).sock = w.sock ∧ (tick w id).scope = w.scope
  ∧ (tick w id).intervals = w.intervals ∧ (tick w id).hidden = w.hidden
  ∧ (tick w id).nextTimerId = w.nextTimerId := by
  unfold tick
  cases w.intervals.find? (fun t => decide (t.id = id)) with
  | none => exact ⟨rfl, rfl, rfl, rfl, rfl⟩
  | some t =>
    by_cases hc : (!t.visibleOnly || !w.hidden) = true
    · simp only [hc, if_true]; exact invoke_parts w t.fn
    · simp only [hc, if_false]; exact ⟨rfl, rfl, rfl, rfl, rfl⟩

lemma tick_cnt (w : World) (id : Nat) (n : Nat)
    (hsc : w.scope.started = false ∨ w.scope.reconnectCb ≠ some n)
    (ht : ∀ t ∈ w.intervals, t.fn ≠ Handler.user n) :
    cnt n (tick w id).trace = cnt n w.trace := by
  unfold tick
  cases hf : w.intervals.find? (fun t => decide (t.id = id)) with
  | none => rfl
  | some t =>
    have hmem := List.mem_of_find?_eq_some hf
    have hfn : t.fn ≠ Handler.user n := ht t hmem
    by_cases hc : (!t.visibleOnly || !w.hidden) = true
    · simp only [hc, if_true, invoke, cnt_append]
      rw [cnt_emitOf w.scope n t.fn hsc]
      simp [hfn]
    · simp [hc]

lemma connectSignal_parts (w : World) :
    (connectSignal w).sock.handlers = w.sock.handlers
  ∧ (connectSignal w).sock.onceConnect = []
  ∧ (connectSignal w).sock.connected = true
  ∧ (connectSignal w).scope = w.scope
  ∧ (connectSignal w).intervals = w.intervals
  ∧ (connectSignal w).hidden = w.hidden
  ∧ (connectSignal w).nextTimerId = w.nextTimerId := by
  unfold connectSignal
  have h1 := fireEvent_parts
    { w with sock := { w.sock with connected := true, onceConnect := [] } } "connect"
  have h2 := invokeAll_parts
    (fireEvent { w with sock := { w.sock with connected := true, onceConnect := [] } }
      "connect") w.sock.onceConnect
  refine ⟨?_, ?_, ?_, ?_, ?_, ?_, ?_⟩
  · rw [h2.1, h1.1]
  · rw [h2.1, h1.1]
  · rw [h2.1, h1.1]
  · rw [h2.2.1, h1.2.1]
  · rw [h2.2.2.1, h1.2.2.1]
  · rw [h2.2.2.2.1, h1.2.2.2.1]
  · rw [h2.2.2.2.2, h1.2.2.2.2]

lemma connectSignal_cnt (w : World) (n : Nat)
    (hsc : w.scope.started = false ∨ w.scope.reconnectCb ≠ some n)
    (hh : ∀ p ∈ w.sock.handlers, p.2 ≠ Handler.user n) :
    cnt n (connectSignal w).trace
      = cnt n w.trace + cnt (Handler.user n) w.sock.onceConnect := by
  unfold connectSignal
  set w1 : World :=
    { w with sock := { w.sock with connected := true, onceConnect := [] } } with hw1
  have hs1 : w1.scope = w.scope := rfl
  have hfsc : (fireEvent w1 "connect").scope.started = false
      ∨ (fireEvent w1 "connect").scope.reconnectCb ≠ some n := by
    rw [(fireEvent_parts w1 "connect").2.1, hs1]; exact hsc
  rw [invokeAll_cnt n _ _ hfsc]
  rw [fireEvent_cnt w1 "connect" n (by rw [hs1]; exact hsc) hh]

lemma step_parts (w : World) (e : Ev) :
    (step w e).sock.handlers = w.sock.handlers
  ∧ (step w e).scope = w.scope
  ∧ (step w e).intervals = w.intervals
  ∧ (step w e).nextTimerId = w.nextTimerId := by
  cases e with
  | tick id =>
    have h := tick_parts w id
    exact ⟨by rw [step, h.1], h.2.1, h.2.2.1, h.2.2.2.2⟩
  | connect =>
    have h := connectSignal_parts w
    exact ⟨h.1, h.2.2.2.1, h.2.2.2.2.1, h.2.2.2.2.2.2⟩
  | disconnect =>
    have h := fireEvent_parts
      { w with sock := { w.sock with connected := false } } "disconnect"
    exact ⟨by rw [step, disconnectSignal, h.1], by rw [step, disconnectSignal, h.2.1],
      by rw [step, disconnectSignal, h.2.2.1], by rw [step, disconnectSignal, h.2.2.2.2]⟩
  | reconnect =>
    have h := fireEvent_parts w "reconnect"
    exact ⟨by rw [step, reconnectSignal, h.1], by rw [step, reconnectSignal, h.2.1],
      by rw [step, reconnectSignal, h.2.2.1], by rw [step, reconnectSignal, h.2.2.2.2]⟩
  | setHidden b => exact ⟨rfl, rfl, rfl, rfl⟩

lemma step_onceConnect (w : World) (e : Ev) :
    (step w e).sock.onceConnect
      = if e = Ev.connect then [] else w.sock.onceConnect := by
  cases e with
  | tick id => simp only [step]; rw [(tick_parts w id).1]; rfl
  | connect => simp only [step, if_pos rfl]; exact (connectSignal_parts w).2.1
  | disconnect =>
    simp only [step, disconnectSignal]
    rw [(fireEvent_parts { w with sock := { w.sock with connected := false } }
      "disconnect").1]
    rfl
  | reconnect =>
    simp only [step, reconnectSignal]
    rw [(fireEvent_parts w "reconnect").1]
    rfl
  | setHidden b => rfl

lemma step_cnt (w : World) (e : Ev) (n : Nat)
    (hsc : w.scope.started = false ∨ w.scope.reconnectCb ≠ some n)
    (hh : ∀ p ∈ w.sock.handlers, p.2 ≠ Handler.user n)
    (ht : ∀ t ∈ w.intervals, t.fn ≠ Handler.user n) :
    cnt n (step w e).trace
      = cnt n w.trace
        + (if e = Ev.connect then cnt (Handler.user n) w.sock.onceConnect else 0) := by
  cases e with
  | tick id => simp only [step]; rw [tick_cnt w id n hsc ht]; simp
  | connect => simp only [step, if_pos rfl]; exact connectSignal_cnt w n hsc hh
  | disconnect =>
    have h := fireEvent_cnt { w with sock := { w.sock with connected := false } }
      "disconnect" n hsc hh
    simpa [step, disconnectSignal] using h
  | reconnect =>
    simp only [step, reconnectSignal]
    rw [fireEvent_cnt w "reconnect" n hsc hh]
    simp
  | setHidden b => simp [step]

lemma run_nil (w : World) : run w [] = w := rfl

lemma run_cons (w : World) (e : Ev) (es : List Ev) :
    run w (e :: es) = run (step w e) es := rfl

lemma run_append (w : World) (es1 es2 : List Ev) :
    run w (es1 ++ es2) = run (run w es1) es2 :=
  List.foldl_append step w es1 es2

lemma run_parts (es : List Ev) (w : World) :
    (run w es).sock.handlers = w.sock.handlers
  ∧ (run w es).scope = w.scope
  ∧ (run w es).intervals = w.intervals
  ∧ (run w es).nextTimerId = w.nextTimerId := by
  induction es generalizing w with
  | nil => exact ⟨rfl, rfl, rfl, rfl⟩
  | cons e t ih =>
    rw [run_cons]
    have hs := step_parts w e
    have ht := ih (step w e)
    exact ⟨ht.1.trans hs.1, ht.2.1.trans hs.2.1, ht.2.2.1.trans hs.2.2.1,
           ht.2.2.2.trans hs.2.2.2⟩

lemma run_onceConnect_noConnect (es : List Ev) (w : World)
    (hnc : Ev.connect ∉ es) :
    (run w es).sock.onceConnect = w.sock.onceConnect := by
  induction es generalizing w with
  | nil => rfl
  | cons e t ih =>
    rw [run_cons]
    have he : e ≠ Ev.connect := fun h => hnc (h ▸ List.mem_cons_self e t)
    have hs : (step w e).sock.onceConnect = w.sock.onceConnect := by
      rw [step_onceConnect, if_neg he]
    rw [ih (step w e) (fun h => hnc (List.mem_cons_of_mem e h)), hs]

lemma run_cnt_noConnect (es : List Ev) (w : World) (n : Nat)
    (hnc : Ev.connect ∉ es)
    (hsc : w.scope.started = false ∨ w.scope.reconnectCb ≠ some n)
    (hh : ∀ p ∈ w.sock.handlers, p.2 ≠ Handler.user n)
    (ht : ∀ t ∈ w.intervals, t.fn ≠ Handler.user n) :
    cnt n (run w es).trace = cnt n w.trace := by
  induction es generalizing w with
  | nil => rfl
  | cons e t ih =>
    rw [run_cons]
    have he : e ≠ Ev.connect := fun h => hnc (h ▸ List.mem_cons_self e t)
    have hp := step_parts w e
    have ih2 := ih (step w e) (fun h => hnc (List.mem_cons_of_mem e h))
      (by rw [hp.2.1]; exact hsc) (by rw [hp.1]; exact hh)
      (by rw [hp.2.2.1]; exact ht)
    rw [ih2, step_cnt w e n hsc hh ht, if_neg he]
    omega

lemma run_cnt_free (es : List Ev) (w : World) (n : Nat)
    (hsc : w.scope.started = false ∨ w.scope.reconnectCb ≠ some n)
    (hh : ∀ p ∈ w.sock.handlers, p.2 ≠ Handler.user n)
    (ht : ∀ t ∈ w.intervals, t.fn ≠ Handler.user n)
    (hq : Handler.user n ∉ w.sock.onceConnect) :
    cnt n (run w es).trace = cnt n w.trace := by
  induction es generalizing w with
  | nil => rfl
  | cons e t ih =>
    rw [run_cons]
    have hp := step_parts w e
    have hq2 : Handler.user n ∉ (step w e).sock.onceConnect := by
      rw [step_onceConnect]
      by_cases he : e = Ev.connect
      · simp [he]
      · rw [if_neg he]; exact hq
    have ih2 := ih (step w e)
      (by rw [hp.2.1]; exact hsc) (by rw [hp.1]; exact hh)
      (by rw [hp.2.2.1]; exact ht) hq2
    rw [ih2, step_cnt w e n hsc hh ht]
    by_cases he : e = Ev.connect
    · rw [if_pos he, cnt_eq_zero.mpr hq]; omega
    · rw [if_neg he]; omega

lemma emitWhenReady_connected (w : World) (h : Handler)
    (hc : w.sock.connected = true) :
    emitWhenReady w h = invoke w h := by
  rw [emitWhenReady, if_pos hc]

lemma emitWhenReady_disconnected (w : World) (h : Handler)
    (hc : w.sock.connected = false) :
    emitWhenReady w h = { w with sock := socketOnce w.sock h } := by
  rw [emitWhenReady, if_neg (by rw [hc]; exact Bool.false_ne_true)]

/-- Claim C2: for every session, an `emitWhenReady(fn)` call made while the
connection is connected invokes `fn` synchronously exactly once (and no later
external occurrence re-invokes it); a call made while the connection is
disconnected invokes `fn` exactly once upon the next `connect` signal, never
before that signal, and never a second time afterwards. -/
theorem c2_emitWhenReady_once (w : World) (n : Nat) (es es2 : List Ev)
    (hh : ∀ p ∈ w.sock.handlers, p.2 ≠ Handler.user n)
    (ht : ∀ t ∈ w.intervals, t.fn ≠ Handler.user n)
    (hq : Handler.user n ∉ w.sock.onceConnect)
    (hsc : w.scope.started = false ∨ w.scope.reconnectCb ≠ some n)
    (hnc : Ev.connect ∉ es) :
    (w.sock.connected = true →
        (emitWhenReady w (Handler.user n)).trace = w.trace ++ [n]
      ∧ ∀ es3 : List Ev,
          cnt n (run (emitWhenReady w (Handler.user n)) es3).trace
            = cnt n w.trace + 1)
  ∧ (w.sock.connected = false →
        cnt n (run (emitWhenReady w (Handler.user n)) es).trace = cnt n w.trace
      ∧ cnt n (run (emitWhenReady w (Handler.user n)) (es ++ Ev.connect :: es2)).trace
          = cnt n w.trace + 1) := by
  constructor
  · intro hc
    rw [emitWhenReady_connected w _ hc]
    have htr : (invoke w (Handler.user n)).trace = w.trace ++ [n] := by
      simp [invoke, emitOf]
    refine ⟨htr, fun es3 => ?_⟩
    rw [run_cnt_free es3 (invoke w (Handler.user n)) n hsc hh ht hq]
    rw [htr, cnt_append]
    simp [cnt]
  · intro hc
    rw [emitWhenReady_disconnected w _ hc]
    set w1 : World := { w with sock := socketOnce w.sock (Handler.user n) } with hw1
    have hh1 : ∀ p ∈ w1.sock.handlers, p.2 ≠ Handler.user n := hh
    have ht1 : ∀ t ∈ w1.intervals, t.fn ≠ Handler.user n := ht
    have hq1 : cnt (Handler.user n) w1.sock.onceConnect = 1 := by
      show cnt (Handler.user n) (w.sock.onceConnect ++ [Handler.user n]) = 1
      rw [cnt_append, cnt_eq_zero.mpr hq]
      simp [cnt]
    have hbefore : cnt n (run w1 es).trace = cnt n w.trace :=
      run_cnt_noConnect es w1 n hnc hsc hh1 ht1
    refine ⟨hbefore, ?_⟩
    rw [run_append]
    set w2 : World := run w1 es with hw2
    have hp2 := run_parts es w1
    have hsc2 : w2.scope.started = false ∨ w2.scope.reconnectCb ≠ some n := by
      rw [hw2, hp2.2.1]; exact hsc
    have hh2 : ∀ p ∈ w2.sock.handlers, p.2 ≠ Handler.user n := by
      rw [hw2, hp2.1]; exact hh1
    have ht2 : ∀ t ∈ w2.intervals, t.fn ≠ Handler.user n := by
      rw [hw2, hp2.2.2.1]; exact ht1
    have hq2 : cnt (Handler.user n) w2.sock.onceConnect = 1 := by
      rw [hw2, run_onceConnect_noConnect es w1 hnc]; exact hq1
    rw [run_cons]
    have hstep := step_cnt w2 Ev.connect n hsc2 hh2 ht2
    rw [if_pos rfl, hq2] at hstep
    have hp3 := step_parts w2 Ev.connect
    have hq3 : Handler.user n ∉ (step w2 Ev.connect).sock.onceConnect := by
      rw [step_onceConnect, if_pos rfl]; exact List.not_mem_nil _
    rw [run_cnt_free es2 (step w2 Ev.connect) n
        (by rw [hp3.2.1]; exact hsc2) (by rw [hp3.1]; exact hh2)
        (by rw [hp3.2.2.1]; exact ht2) hq3]
    rw [hstep, hbefore]

/-- Witness for C2 at a concrete session: on the freshly created "jobs"
session (connection disconnected), a deferred callback does not fire on a
reconnect signal, and fires exactly once across the next connect signal and a
further connect signal. -/
theorem c2_witness :
    cnt 4 (run (emitWhenReady (SocketPage initWorld "jobs") (Handler.user 4))
        [Ev.reconnect]).trace
      = cnt 4 (SocketPage initWorld "jobs").trace
  ∧ cnt 4 (run (emitWhenReady (SocketPage initWorld "jobs") (Handler.user 4))
        ([Ev.reconnect] ++ Ev.connect :: [Ev.connect])).trace
      = cnt 4 (SocketPage initWorld "jobs").trace + 1 :=
  (c2_emitWhenReady_once (SocketPage initWorld "jobs") 4 [Ev.reconnect]
    [Ev.connect] (by decide) (by decide) (by decide) (by decide) (by decide)).2
    (by decide)

lemma reconnect_fire (w : World) (c : Nat)
    (hst : w.scope.started = true) (hcb : w.scope.reconnectCb = some c)
    (hfil : w.sock.handlers.filter (fun p => decide (p.1 = "reconnect"))
        = [("reconnect", Handler.scopeReconnect)]) :
    step w Ev.reconnect = { w with trace := w.trace ++ [c] } := by
  show reconnectSignal w = _
  rw [reconnectSignal, fireEvent, filterMap_eventSel, hfil]
  show invoke w Handler.scopeReconnect = _
  rw [invoke]
  have : emitOf w.scope Handler.scopeReconnect = [c] := by
    simp [emitOf, hst, hcb]
  rw [this]

/-- Claim C5: for a session whose reconnect callback is registered, no
external occurrence sequence invokes the callback while the session's started
flag is still false; once `markStarted` has run (started = true), every
`reconnect` signal invokes the callback exactly once per signal. -/
theorem c5_onReconnect_gated (w : World) (c : Nat)
    (hcb : w.scope.reconnectCb = some c)
    (hh : ∀ p ∈ w.sock.handlers, p.2 ≠ Handler.user c)
    (ht : ∀ t ∈ w.intervals, t.fn ≠ Handler.user c)
    (hq : Handler.user c ∉ w.sock.onceConnect) :
    (w.scope.started = false →
      ∀ es : List Ev, cnt c (run w es).trace = cnt c w.trace)
  ∧ (w.scope.started = true →
      w.sock.handlers.filter (fun p => decide (p.1 = "reconnect"))
          = [("reconnect", Handler.scopeReconnect)] →
      ∀ k : Nat, (run w (List.replicate k Ev.reconnect)).trace
          = w.trace ++ List.replicate k c) := by
  constructor
  · intro hst es
    exact run_cnt_free es w c (Or.inl hst) hh ht hq
  · intro hst hfil
    intro k
    induction k generalizing w with
    | zero => simp [run_nil]
    | succ k ih =>
      rw [List.replicate_succ, run_cons, reconnect_fire w c hst hcb hfil]
      set w1 : World := { w with trace := w.trace ++ [c] } with hw1
      have ih2 := ih w1 hcb hh ht hq hst hfil
      rw [ih2]
      simp [hw1, List.replicate_succ]

/-- Witness for C5 at a concrete session: the "d" session with callback 7
registered and markStarted called receives two reconnect signals and the
callback runs exactly twice; before markStarted a reconnect signal adds no
invocation. -/
theorem c5_witness :
    cnt 7 (run (onReconnect (SocketPage initWorld "d") 7) [Ev.reconnect]).trace
      = cnt 7 (onReconnect (SocketPage initWorld "d") 7).trace
  ∧ (run (markStarted (onReconnect (SocketPage initWorld "d") 7))
        (List.replicate 2 Ev.reconnect)).trace
      = (markStarted (onReconnect (SocketPage initWorld "d") 7)).trace
          ++ List.replicate 2 7 :=
  ⟨(c5_onReconnect_gated (onReconnect (SocketPage initWorld "d") 7) 7
      (by decide) (by decide) (by decide) (by decide)).1 (by decide) [Ev.reconnect],
   (c5_onReconnect_gated (markStarted (onReconnect (SocketPage initWorld "d") 7)) 7
      (by decide) (by decide) (by decide) (by decide)).2 (by decide) (by decide) 2⟩

lemma lookupEv_setEv (l : List (String × Handler)) (ev : String) (h : Handler) :
    lookupEv (setEv l ev h) ev = some h := by
  induction l with
  | nil => simp [setEv, lookupEv]
  | cons p r ih =>
    by_cases hp : p.1 = ev
    · simp [setEv, hp, lookupEv]
    · simp [setEv, hp, lookupEv, ih]

lemma scopeOn_none (w : World) (ev : String) (h : Handler)
    (hl : lookupEv w.scope.listeners ev = none) :
    scopeOn w ev h
      = { w with
          sock := socketOn w.sock ev h,
          scope := { w.scope with listeners := setEv w.scope.listeners ev h } } := by
  unfold scopeOn
  rw [hl]

lemma scopeOn_some (w : World) (ev : String) (h old : Handler)
    (hl : lookupEv w.scope.listeners ev = some old) :
    scopeOn w ev h
      = { w with
          sock := socketOn (socketOff w.sock ev old) ev h,
          scope := { w.scope with listeners := setEv w.scope.listeners ev h } } := by
  unfold scopeOn
  rw [hl]

/-- Claim C1: registering `on(event, h1)` and then `on(event, h2)` on a
session leaves exactly one live handler for that event on the shared
connection, namely h2: the intermediate state has h1 as the only live
handler, the final state has h2 as the only live handler, and the session's
tracked map points at h2. -/
theorem c1_on_replaces (w : World) (ev : String) (a b : Nat)
    (hev : w.sock.handlers.filter (fun p => decide (p.1 = ev)) = [])
    (hl : lookupEv w.scope.listeners ev = none) :
    (scopeOn w ev (Handler.user a)).sock.handlers.filter
        (fun p => decide (p.1 = ev)) = [(ev, Handler.user a)]
  ∧ (scopeOn (scopeOn w ev (Handler.user a)) ev (Handler.user b)).sock.handlers.filter
        (fun p => decide (p.1 = ev)) = [(ev, Handler.user b)]
  ∧ lookupEv
        (scopeOn (scopeOn w ev (Handler.user a)) ev (Handler.user b)).scope.listeners
        ev = some (Handler.user b) := by
  have hnil : ∀ x ∈ w.sock.handlers, ¬((fun p => decide (p.1 = ev)) x = true) :=
    List.filter_eq_nil_iff.mp hev
  rw [scopeOn_none w ev (Handler.user a) hl]
  set w1 : World :=
    { w with
      sock := socketOn w.sock ev (Handler.user a),
      scope :=
        { w.scope with listeners := setEv w.scope.listeners ev (Handler.user a) } }
    with hw1
  have hl1 : lookupEv w1.scope.listeners ev = some (Handler.user a) :=
    lookupEv_setEv w.scope.listeners ev (Handler.user a)
  have h1 : w1.sock.handlers.filter (fun p => decide (p.1 = ev))
      = [(ev, Handler.user a)] := by
    show (w.sock.handlers ++ [(ev, Handler.user a)]).filter
        (fun p => decide (p.1 = ev)) = [(ev, Handler.user a)]
    rw [List.filter_append, hev]
    simp
  refine ⟨h1, ?_, ?_⟩
  · rw [scopeOn_some w1 ev (Handler.user b) (Handler.user a) hl1]
    show ((socketOff w1.sock ev (Handler.user a)).handlers
        ++ [(ev, Handler.user b)]).filter (fun p => decide (p.1 = ev))
      = [(ev, Handler.user b)]
    rw [List.filter_append]
    have hoff : (socketOff w1.sock ev (Handler.user a)).handlers.filter
        (fun p => decide (p.1 = ev)) = [] := by
      show ((w.sock.handlers ++ [(ev, Handler.user a)]).filter
          (fun p => ! decide (p.1 = ev ∧ p.2 = Handler.user a))).filter
          (fun p => decide (p.1 = ev)) = []
      rw [List.filter_append]
      have hx : ([(ev, Handler.user a)] : List (String × Handler)).filter
          (fun p => ! decide (p.1 = ev ∧ p.2 = Handler.user a)) = [] := by
        simp
      rw [hx, List.append_nil]
      apply List.filter_eq_nil_iff.mpr
      intro x hx2
      exact hnil x (List.mem_filter.mp hx2).1
    rw [hoff]
    simp
  · rw [scopeOn_some w1 ev (Handler.user b) (Handler.user a) hl1]
    exact lookupEv_setEv w1.scope.listeners ev (Handler.user b)

/-- Witness for C1 on the concrete "jobs" session and the jobs_list event. -/
theorem c1_witness :
    (scopeOn (scopeOn (SocketPage initWorld "jobs") "jobs_list" (Handler.user 1))
        "jobs_list" (Handler.user 2)).sock.handlers.filter
        (fun p => decide (p.1 = "jobs_list"))
      = [("jobs_list", Handler.user 2)] :=
  (c1_on_replaces (SocketPage initWorld "jobs") "jobs_list" 1 2
    (by decide) (by decide)).2.1

lemma offEach_nil (s : Socket) : offEach s [] = s := rfl

lemma offEach_cons (s : Socket) (p : String × Handler)
    (r : List (String × Handler)) :
    offEach s (p :: r) = offEach (socketOff s p.1 p.2) r := rfl

lemma offEach_handlers_subset (l : List (String × Handler)) (s : Socket)
    (q : String × Handler) (hq : q ∈ (offEach s l).handlers) :
    q ∈ s.handlers := by
  induction l generalizing s with
  | nil => exact hq
  | cons p r ih =>
    rw [offEach_cons] at hq
    have h2 := ih (socketOff s p.1 p.2) hq
    exact (List.mem_filter.mp h2).1

lemma offEach_not_mem (l : List (String × Handler)) (s : Socket)
    (q : String × Handler) (hq : q ∈ l) :
    q ∉ (offEach s l).handlers := by
  induction l generalizing s with
  | nil => exact absurd hq (List.not_mem_nil q)
  | cons p r ih =>
    rw [offEach_cons]
    rcases List.mem_cons.mp hq with hqp | hqr
    · subst hqp
      intro hmem
      have h2 := offEach_handlers_subset r (socketOff s q.1 q.2) q hmem
      have h3 := (List.mem_filter.mp h2).2
      simp at h3
    · exact ih (socketOff s p.1 p.2) hqr

lemma filter_id_nil_mem (l : List Timer) :
    l.filter (fun t => ! decide (t.id ∈ ([] : List Nat))) = l := by
  induction l with
  | nil => rfl
  | cons t r ih => simp [List.filter_cons, ih]

lemma cleanup_of_clean (w : World) (h1 : w.scope.timers = [])
    (h2 : w.scope.listeners = []) : cleanup w = w := by
  cases w with
  | mk sock scope intervals hidden next trace =>
    cases scope with
    | mk name timers listeners started cb =>
      simp only [Scope.timers] at h1
      simp only [Scope.listeners] at h2
      subst h1
      subst h2
      unfold cleanup
      simp [offEach_nil, filter_id_nil_mem]

/-- Claim C4: cleanup empties the session's tracked timer list and listener
map, removes every tracked timer from the interval table, unsubscribes every
tracked event binding from the shared connection, and is idempotent: a second
cleanup call is a no-op. -/
theorem c4_cleanup_idempotent (w : World) :
    (cleanup w).scope.timers = []
  ∧ (cleanup w).scope.listeners = []
  ∧ (∀ t ∈ (cleanup w).intervals, t.id ∉ w.scope.timers)
  ∧ (∀ p ∈ w.scope.listeners, p ∉ (cleanup w).sock.handlers)
  ∧ cleanup (cleanup w) = cleanup w := by
  refine ⟨rfl, rfl, ?_, ?_, ?_⟩
  · intro t htmem
    have h2 := (List.mem_filter.mp htmem).2
    simp at h2
    exact h2
  · intro p hp
    exact offEach_not_mem w.scope.listeners _ p hp
  · exact cleanup_of_clean (cleanup w) rfl rfl

lemma offEach_onceConnect_cnt (l : List (String × Handler)) (s : Socket)
    (h : Handler) (hl : ∀ p ∈ l, p.2 ≠ h) :
    cnt h (offEach s l).onceConnect = cnt h s.onceConnect := by
  induction l generalizing s with
  | nil => rfl
  | cons p r ih =>
    rw [offEach_cons,
        ih (socketOff s p.1 p.2) (fun q hq => hl q (List.mem_cons_of_mem p hq))]
    have hp := hl p (List.mem_cons_self p r)
    by_cases hc : p.1 = "connect"
    · show cnt h (if p.1 = "connect"
          then s.onceConnect.filter (fun x => ! decide (x = p.2))
          else s.onceConnect) = cnt h s.onceConnect
      rw [if_pos hc]
      apply cnt_filter_keep
      simp [Ne.symm hp]
    · show cnt h (if p.1 = "connect"
          then s.onceConnect.filter (fun x => ! decide (x = p.2))
          else s.onceConnect) = cnt h s.onceConnect
      rw [if_neg hc]

/-- Claim C9: a callback deferred by emitWhenReady while the connection is
disconnected is not cancelled by cleanup: after cleanup it is still queued on
the shared connection's once-connect list, and the next connect signal
invokes it exactly once. -/
theorem c9_deferred_survives_cleanup (w : World) (n : Nat)
    (hdisc : w.sock.connected = false)
    (hlst : ∀ p ∈ w.scope.listeners, p.2 ≠ Handler.user n)
    (hq : Handler.user n ∉ w.sock.onceConnect)
    (hh : ∀ p ∈ w.sock.handlers, p.2 ≠ Handler.user n)
    (hsc : w.scope.started = false ∨ w.scope.reconnectCb ≠ some n) :
    Handler.user n ∈ (cleanup (emitWhenReady w (Handler.user n))).sock.onceConnect
  ∧ cnt n (step (cleanup (emitWhenReady w (Handler.user n))) Ev.connect).trace
      = cnt n (cleanup (emitWhenReady w (Handler.user n))).trace + 1 := by
  rw [emitWhenReady_disconnected w _ hdisc]
  set w1 : World := { w with sock := socketOnce w.sock (Handler.user n) } with hw1
  have hcnt1 : cnt (Handler.user n) w1.sock.onceConnect = 1 := by
    show cnt (Handler.user n) (w.sock.onceConnect ++ [Handler.user n]) = 1
    rw [cnt_append, cnt_eq_zero.mpr hq]
    simp [cnt]
  have hconce : (cleanup w1).sock.onceConnect
      = (offEach w1.sock w.scope.listeners).onceConnect := rfl
  have hcnt2 : cnt (Handler.user n) (cleanup w1).sock.onceConnect = 1 := by
    rw [hconce, offEach_onceConnect_cnt w.scope.listeners w1.sock _ hlst, hcnt1]
  refine ⟨mem_of_cnt_one hcnt2, ?_⟩
  have hh2 : ∀ p ∈ (cleanup w1).sock.handlers, p.2 ≠ Handler.user n := by
    intro p hp
    exact hh p (offEach_handlers_subset w.scope.listeners w1.sock p hp)
  have hsc2 : (cleanup w1).scope.started = false
      ∨ (cleanup w1).scope.reconnectCb ≠ some n := hsc
  show cnt n (connectSignal (cleanup w1)).trace = _
  rw [connectSignal_cnt (cleanup w1) n hsc2 hh2, hcnt2]

/-- Witness for C9: on the fresh "jobs" session, a callback deferred while
disconnected survives cleanup and fires once at the next connect signal. -/
theorem c9_witness :
    Handler.user 6
      ∈ (cleanup (emitWhenReady (SocketPage initWorld "jobs")
          (Handler.user 6))).sock.onceConnect
  ∧ cnt 6 (step (cleanup (emitWhenReady (SocketPage initWorld "jobs")
        (Handler.user 6))) Ev.connect).trace
      = cnt 6 (cleanup (emitWhenReady (SocketPage initWorld "jobs")
          (Handler.user 6))).trace + 1 :=
  c9_deferred_survives_cleanup (SocketPage initWorld "jobs") 6
    (by decide) (by decide) (by decide) (by decide) (by decide)

lemma offEach_filter_fix (l : List (String × Handler)) (s : Socket)
    (ev : String) (x : String × Handler) (hl : ∀ p ∈ l, p.2 ≠ x.2)
    (hf : s.handlers.filter (fun p => decide (p.1 = ev)) = [x]) :
    (offEach s l).handlers.filter (fun p => decide (p.1 = ev)) = [x] := by
  induction l generalizing s with
  | nil => exact hf
  | cons q r ih =>
    rw [offEach_cons]
    apply ih (socketOff s q.1 q.2) (fun p hp => hl p (List.mem_cons_of_mem q hp))
    have hqx := hl q (List.mem_cons_self q r)
    show ((s.handlers.filter (fun p => ! decide (p.1 = q.1 ∧ p.2 = q.2))).filter
        (fun p => decide (p.1 = ev))) = [x]
    rw [List.filter_filter, List.filter_congr
        (fun a _ => Bool.and_comm (decide (a.1 = ev))
          (! decide (a.1 = q.1 ∧ a.2 = q.2))),
        ← List.filter_filter, hf]
    have hnp : ¬(x.1 = q.1 ∧ x.2 = q.2) := fun hpair => hqx hpair.2.symm
    have hkeep : (! decide (x.1 = q.1 ∧ x.2 = q.2)) = true := by
      simp [hnp]
    rw [List.filter_cons, if_pos hkeep]
    rfl

/-- Claim C10: the reconnect listener installed at session creation is not in
the session's tracked listener map, so cleanup never removes it: after
cleanup it is still subscribed (and still the only reconnect listener), and a
reconnect signal still invokes the registered callback when started is true. -/
theorem c10_reconnect_survives_cleanup (w : World) (c : Nat)
    (hl : ∀ p ∈ w.scope.listeners, p.2 ≠ Handler.scopeReconnect)
    (hfil : w.sock.handlers.filter (fun p => decide (p.1 = "reconnect"))
        = [("reconnect", Handler.scopeReconnect)])
    (hst : w.scope.started = true)
    (hcb : w.scope.reconnectCb = some c) :
    ("reconnect", Handler.scopeReconnect) ∈ (cleanup w).sock.handlers
  ∧ (cleanup w).sock.handlers.filter (fun p => decide (p.1 = "reconnect"))
      = [("reconnect", Handler.scopeReconnect)]
  ∧ (step (cleanup w) Ev.reconnect).trace = (cleanup w).trace ++ [c] := by
  have hfil2 : (cleanup w).sock.handlers.filter
      (fun p => decide (p.1 = "reconnect"))
      = [("reconnect", Handler.scopeReconnect)] :=
    offEach_filter_fix w.scope.listeners w.sock "reconnect"
      ("reconnect", Handler.scopeReconnect) hl hfil
  have hmem : ("reconnect", Handler.scopeReconnect)
      ∈ (cleanup w).sock.handlers := by
    have hx : ("reconnect", Handler.scopeReconnect)
        ∈ (cleanup w).sock.handlers.filter
            (fun p => decide (p.1 = "reconnect")) := by
      rw [hfil2]
      exact List.mem_cons_self _ _
    exact (List.mem_filter.mp hx).1
  refine ⟨hmem, hfil2, ?_⟩
  have hst2 : (cleanup w).scope.started = true := hst
  have hcb2 : (cleanup w).scope.reconnectCb = some c := hcb
  rw [reconnect_fire (cleanup w) c hst2 hcb2 hfil2]

/-- Witness for C10: on the concrete started "d" session with callback 7 and
one tracked listener, the reconnect listener survives cleanup and the
callback still fires on a reconnect signal after cleanup. -/
theorem c10_witness :
    ("reconnect", Handler.scopeReconnect)
      ∈ (cleanup (markStarted (onReconnect
          (scopeOn (SocketPage initWorld "d") "x" (Handler.user 3)) 7))).sock.handlers
  ∧ (step (cleanup (markStarted (onReconnect
        (scopeOn (SocketPage initWorld "d") "x" (Handler.user 3)) 7)))
        Ev.reconnect).trace
      = (cleanup (markStarted (onReconnect
          (scopeOn (SocketPage initWorld "d") "x" (Handler.user 3)) 7))).trace
          ++ [7] := by
  have h := c10_reconnect_survives_cleanup
    (markStarted (onReconnect
      (scopeOn (SocketPage initWorld "d") "x" (Handler.user 3)) 7)) 7
    (by decide) (by decide) (by decide) (by decide)
  exact ⟨h.1, h.2.2⟩

lemma tick_eq_of_find (w : World) (id : Nat) (t : Timer)
    (ht : w.intervals.find? (fun x => decide (x.id = id)) = some t) :
    tick w id = if !t.visibleOnly || !w.hidden then invoke w t.fn else w := by
  unfold tick
  rw [ht]

lemma tick_hidden_noop (w : World) (id : Nat) (t : Timer)
    (ht : w.intervals.find? (fun x => decide (x.id = id)) = some t)
    (hv : t.visibleOnly = true) (hh : w.hidden = true) :
    tick w id = w := by
  rw [tick_eq_of_find w id t ht, hv, hh]
  rfl

lemma run_replicate_fix (w : World) (e : Ev) (k : Nat)
    (hfix : step w e = w) : run w (List.replicate k e) = w := by
  induction k with
  | zero => rfl
  | succ k ih => rw [List.replicate_succ, run_cons, hfix, ih]

/-- Claim C6: a timer created with visibleOnly keeps its underlying interval
firing while the page is hidden, but hidden ticks neither invoke the callback
nor change anything else (no replay); the next tick after the page becomes
visible again invokes the callback once, with the interval table unchanged. -/
theorem c6_visibleOnly_hidden_skips (w : World) (id n k : Nat) (t : Timer)
    (ht : w.intervals.find? (fun x => decide (x.id = id)) = some t)
    (hv : t.visibleOnly = true) (hfn : t.fn = Handler.user n)
    (hh : w.hidden = true) :
    run w (List.replicate k (Ev.tick id)) = w
  ∧ (run w (List.replicate k (Ev.tick id)
        ++ [Ev.setHidden false, Ev.tick id])).trace = w.trace ++ [n]
  ∧ (run w (List.replicate k (Ev.tick id)
        ++ [Ev.setHidden false, Ev.tick id])).intervals = w.intervals := by
  have hnoop : step w (Ev.tick id) = w := tick_hidden_noop w id t ht hv hh
  have h1 : run w (List.replicate k (Ev.tick id)) = w :=
    run_replicate_fix w (Ev.tick id) k hnoop
  have h2 : run w (List.replicate k (Ev.tick id)
      ++ [Ev.setHidden false, Ev.tick id])
      = step (step w (Ev.setHidden false)) (Ev.tick id) := by
    rw [run_append, h1]
    rfl
  have hw2 : step w (Ev.setHidden false) = { w with hidden := false } := rfl
  have ht2 : ({ w with hidden := false } : World).intervals.find?
      (fun x => decide (x.id = id)) = some t := ht
  have h3 : step ({ w with hidden := false } : World) (Ev.tick id)
      = invoke { w with hidden := false } t.fn := by
    show tick { w with hidden := false } id = _
    rw [tick_eq_of_find _ id t ht2, hv]
    rfl
  rw [h2, hw2, h3]
  refine ⟨h1, ?_, rfl⟩
  show w.trace ++ emitOf w.scope t.fn = w.trace ++ [n]
  rw [hfn]
  rfl

/-- Witness for C6: a concrete visibleOnly timer on the hidden "jobs" page
skips three hidden ticks entirely and fires once on the first visible tick. -/
theorem c6_witness :
    run (step (poll (SocketPage initWorld "jobs") 180000 (Handler.user 3)
        false true) (Ev.setHidden true)) (List.replicate 3 (Ev.tick 0))
      = step (poll (SocketPage initWorld "jobs") 180000 (Handler.user 3)
          false true) (Ev.setHidden true)
  ∧ (run (step (poll (SocketPage initWorld "jobs") 180000 (Handler.user 3)
        false true) (Ev.setHidden true))
        (List.replicate 3 (Ev.tick 0) ++ [Ev.setHidden false, Ev.tick 0])).trace
      = (step (poll (SocketPage initWorld "jobs") 180000 (Handler.user 3)
          false true) (Ev.setHidden true)).trace ++ [3] := by
  have h := c6_visibleOnly_hidden_skips
    (step (poll (SocketPage initWorld "jobs") 180000 (Handler.user 3)
      false true) (Ev.setHidden true)) 0 3 3
    ⟨0, 180000, true, Handler.user 3⟩ (by decide) (by decide) (by decide)
    (by decide)
  exact ⟨h.1, h.2.1⟩

/-- Claim C7, refutation at a concrete input: with the connection
disconnected, poll(100, fn, immediate:true, visibleOnly:true) does NOT invoke
fn before the first interval tick (the trace is still empty after the call);
the first invocation of fn is produced by the first tick itself, and the
deferred immediate invocation only fires at the later connect signal, giving
two invocations in the order tick-then-connect. -/
theorem c7_counterexample :
    (poll (SocketPage initWorld "jobs") 100 (Handler.user 5) true true).trace
        = ([] : List Nat)
  ∧ (run (poll (SocketPage initWorld "jobs") 100 (Handler.user 5) true true)
        [Ev.tick 0]).trace = [5]
  ∧ (run (poll (SocketPage initWorld "jobs") 100 (Handler.user 5) true true)
        [Ev.tick 0, Ev.connect]).trace = [5, 5] := by
  refine ⟨by decide, by decide, by decide⟩

lemma emitWhenReady_parts (w : World) (h : Handler) :
    (emitWhenReady w h).intervals = w.intervals
  ∧ (emitWhenReady w h).nextTimerId = w.nextTimerId
  ∧ (emitWhenReady w h).hidden = w.hidden
  ∧ (emitWhenReady w h).scope = w.scope
  ∧ (emitWhenReady w h).sock.handlers = w.sock.handlers := by
  cases hcv : w.sock.connected with
  | false =>
    rw [emitWhenReady_disconnected w h hcv]
    exact ⟨rfl, rfl, rfl, rfl, rfl⟩
  | true =>
    rw [emitWhenReady_connected w h hcv]
    exact ⟨rfl, rfl, rfl, rfl, rfl⟩

/-- Claim C7, amended: on a poll(ms, fn, immediate:true, visibleOnly:true)
call, if the connection is connected then fn is invoked synchronously once
before the first tick; if it is disconnected the immediate invocation is
instead queued for the next connect signal (so nothing is invoked by the call
itself); in either case every subsequent tick of the new timer while the page
is visible invokes fn once. -/
theorem c7_poll_immediate_amended (w : World) (ms n : Nat)
    (hWF : ∀ t ∈ w.intervals, t.id < w.nextTimerId)
    (hvis : w.hidden = false) :
    ((poll w ms (Handler.user n) true true).trace
        = if w.sock.connected = true then w.trace ++ [n] else w.trace)
  ∧ ((poll w ms (Handler.user n) true true).sock.onceConnect
        = if w.sock.connected = true then w.sock.onceConnect
          else w.sock.onceConnect ++ [Handler.user n])
  ∧ ((tick (poll w ms (Handler.user n) true true) w.nextTimerId).trace
        = (poll w ms (Handler.user n) true true).trace ++ [n]) := by
  set w1 : World := emitWhenReady w (Handler.user n) with hw1
  have hwp : poll w ms (Handler.user n) true true
      = { w1 with
          intervals := w1.intervals ++ [⟨w1.nextTimerId, ms, true, Handler.user n⟩],
          nextTimerId := w1.nextTimerId + 1,
          scope := { w1.scope with timers := w1.scope.timers ++ [w1.nextTimerId] } } :=
    rfl
  have hparts := emitWhenReady_parts w (Handler.user n)
  refine ⟨?_, ?_, ?_⟩
  · rw [hwp]
    show w1.trace = _
    cases hcv : w.sock.connected with
    | false =>
      rw [if_neg (by simp)]
      rw [hw1, emitWhenReady_disconnected w _ hcv]
    | true =>
      rw [if_pos rfl]
      rw [hw1, emitWhenReady_connected w _ hcv]
      rfl
  · rw [hwp]
    show w1.sock.onceConnect = _
    cases hcv : w.sock.connected with
    | false =>
      rw [if_neg (by simp)]
      rw [hw1, emitWhenReady_disconnected w _ hcv]
      rfl
    | true =>
      rw [if_pos rfl]
      rw [hw1, emitWhenReady_connected w _ hcv]
      rfl
  · have hfind : (poll w ms (Handler.user n) true true).intervals.find?
        (fun x => decide (x.id = w.nextTimerId))
        = some ⟨w1.nextTimerId, ms, true, Handler.user n⟩ := by
      rw [hwp]
      show (w1.intervals ++ [Timer.mk w1.nextTimerId ms true (Handler.user n)]).find?
          (fun x => decide (x.id = w.nextTimerId)) = _
      rw [find?_append_right]
      · have hne : w1.nextTimerId = w.nextTimerId := hparts.2.1
        simp [List.find?, hne]
      · intro x hx
        rw [hparts.1] at hx
        exact decide_eq_false (Nat.ne_of_lt (hWF x hx))
    rw [tick_eq_of_find _ _ _ hfind]
    have hhid : (poll w ms (Handler.user n) true true).hidden = false := by
      rw [hwp]
      show w1.hidden = false
      rw [hparts.2.2.1, hvis]
    rw [hhid]
    show (if (!true || !false) = true
        then invoke (poll w ms (Handler.user n) true true) (Handler.user n)
        else poll w ms (Handler.user n) true true).trace = _
    rfl

/-- Witness for C7 amended: on the fresh (disconnected) "jobs" session,
poll(100, fn, immediate:true) queues fn for connect and the first visible
tick of the new timer invokes fn once. -/
theorem c7_witness :
    ((poll (SocketPage initWorld "jobs") 100 (Handler.user 5) true true).sock.onceConnect
        = if (SocketPage initWorld "jobs").sock.connected = true
          then (SocketPage initWorld "jobs").sock.onceConnect
          else (SocketPage initWorld "jobs").sock.onceConnect ++ [Handler.user 5])
  ∧ ((tick (poll (SocketPage initWorld "jobs") 100 (Handler.user 5) true true)
        (SocketPage initWorld "jobs").nextTimerId).trace
        = (poll (SocketPage initWorld "jobs") 100 (Handler.user 5) true true).trace
            ++ [5]) := by
  have h := c7_poll_immediate_amended (SocketPage initWorld "jobs") 100 5
    (by decide) (by decide)
  exact ⟨h.2.1, h.2.2⟩

lemma poll_parts (w : World) (ms : Nat) (f : Handler) (imm vis : Bool) :
    (poll w ms f imm vis).intervals
        = w.intervals ++ [Timer.mk w.nextTimerId ms vis f]
  ∧ (poll w ms f imm vis).scope.timers = w.scope.timers ++ [w.nextTimerId]
  ∧ (poll w ms f imm vis).nextTimerId = w.nextTimerId + 1
  ∧ (poll w ms f imm vis).hidden = w.hidden
  ∧ (poll w ms f imm vis).trace
      = (if imm then emitWhenReady w f else w).trace := by
  cases imm with
  | false => exact ⟨rfl, rfl, rfl, rfl, rfl⟩
  | true =>
    have hparts := emitWhenReady_parts w f
    refine ⟨?_, ?_, ?_, ?_, rfl⟩
    · show (emitWhenReady w f).intervals
          ++ [Timer.mk (emitWhenReady w f).nextTimerId ms vis f] = _
      rw [hparts.1, hparts.2.1]
    · show (emitWhenReady w f).scope.timers
          ++ [(emitWhenReady w f).nextTimerId] = _
      rw [hparts.2.2.2.1, hparts.2.1]
    · show (emitWhenReady w f).nextTimerId + 1 = _
      rw [hparts.2.1]
    · show (emitWhenReady w f).hidden = _
      rw [hparts.2.2.1]

/-- Claim C8: a second poll call cancels, modifies and replaces nothing: the
two timers are appended in order to the interval table and to the session's
tracked handle list, the earlier timer is untouched, and (for always-firing
timers) a tick of each timer after both calls invokes each callback,
i.e. both timers run concurrently. -/
theorem c8_poll_stacks (w : World) (ms1 ms2 n1 n2 : Nat) (i1 v1 i2 v2 : Bool) :
    (poll (poll w ms1 (Handler.user n1) i1 v1) ms2 (Handler.user n2) i2 v2).intervals
        = w.intervals ++ [Timer.mk w.nextTimerId ms1 v1 (Handler.user n1),
            Timer.mk (w.nextTimerId + 1) ms2 v2 (Handler.user n2)]
  ∧ (poll (poll w ms1 (Handler.user n1) i1 v1) ms2 (Handler.user n2) i2 v2).scope.timers
        = w.scope.timers ++ [w.nextTimerId, w.nextTimerId + 1]
  ∧ (v1 = false → v2 = false →
      (∀ t ∈ w.intervals, t.id < w.nextTimerId) →
      (run (poll (poll w ms1 (Handler.user n1) i1 v1) ms2 (Handler.user n2) i2 v2)
          [Ev.tick w.nextTimerId, Ev.tick (w.nextTimerId + 1)]).trace
        = (poll (poll w ms1 (Handler.user n1) i1 v1) ms2 (Handler.user n2)
            i2 v2).trace ++ [n1, n2]) := by
  have hp1 := poll_parts w ms1 (Handler.user n1) i1 v1
  have hp2 := poll_parts (poll w ms1 (Handler.user n1) i1 v1) ms2
    (Handler.user n2) i2 v2
  have hint : (poll (poll w ms1 (Handler.user n1) i1 v1) ms2 (Handler.user n2)
      i2 v2).intervals
      = w.intervals ++ [Timer.mk w.nextTimerId ms1 v1 (Handler.user n1),
          Timer.mk (w.nextTimerId + 1) ms2 v2 (Handler.user n2)] := by
    rw [hp2.1, hp1.1, hp1.2.2.1, List.append_assoc]
    rfl
  have htim : (poll (poll w ms1 (Handler.user n1) i1 v1) ms2 (Handler.user n2)
      i2 v2).scope.timers
      = w.scope.timers ++ [w.nextTimerId, w.nextTimerId + 1] := by
    rw [hp2.2.1, hp1.2.1, hp1.2.2.1, List.append_assoc]
    rfl
  refine ⟨hint, htim, ?_⟩
  intro hv1 hv2 hWF
  subst hv1
  subst hv2
  set w2 : World :=
    poll (poll w ms1 (Handler.user n1) i1 false) ms2 (Handler.user n2) i2 false
    with hw2
  have hall : ∀ x ∈ w.intervals, (fun x => decide (x.id = w.nextTimerId)) x
      = false := fun x hx => decide_eq_false (Nat.ne_of_lt (hWF x hx))
  have hfind1 : w2.intervals.find? (fun x => decide (x.id = w.nextTimerId))
      = some (Timer.mk w.nextTimerId ms1 false (Handler.user n1)) := by
    rw [hint, find?_append_right _ _ _ hall]
    simp [List.find?]
  have hstep1 : step w2 (Ev.tick w.nextTimerId)
      = invoke w2 (Handler.user n1) := by
    show tick w2 w.nextTimerId = _
    rw [tick_eq_of_find _ _ _ hfind1]
    simp
  have hfind2 : (invoke w2 (Handler.user n1)).intervals.find?
      (fun x => decide (x.id = w.nextTimerId + 1))
      = some (Timer.mk (w.nextTimerId + 1) ms2 false (Handler.user n2)) := by
    show w2.intervals.find? _ = _
    rw [hint, find?_append_right _ _ _
      (fun x hx => decide_eq_false (Nat.ne_of_lt (Nat.lt_succ_of_lt (hWF x hx))))]
    have hne : w.nextTimerId ≠ w.nextTimerId + 1 := (Nat.succ_ne_self w.nextTimerId).symm
    simp [List.find?, hne]
  have hstep2 : step (invoke w2 (Handler.user n1)) (Ev.tick (w.nextTimerId + 1))
      = invoke (invoke w2 (Handler.user n1)) (Handler.user n2) := by
    show tick (invoke w2 (Handler.user n1)) (w.nextTimerId + 1) = _
    rw [tick_eq_of_find _ _ _ hfind2]
    simp
  show (step (step w2 (Ev.tick w.nextTimerId)) (Ev.tick (w.nextTimerId + 1))).trace
      = w2.trace ++ [n1, n2]
  rw [hstep1, hstep2]
  show ((w2.trace ++ emitOf w2.scope (Handler.user n1))
      ++ emitOf (invoke w2 (Handler.user n1)).scope (Handler.user n2))
      = w2.trace ++ [n1, n2]
  rw [List.append_assoc]
  rfl

/-- Witness for C8: two concrete poll calls on the "jobs" session stack both
timers and a tick of each one fires each callback once. -/
theorem c8_witness :
    (poll (poll (SocketPage initWorld "jobs") 100 (Handler.user 1) false false)
        200 (Handler.user 2) false false).intervals
      = (SocketPage initWorld "jobs").intervals
          ++ [Timer.mk (SocketPage initWorld "jobs").nextTimerId 100 false
                (Handler.user 1),
              Timer.mk ((SocketPage initWorld "jobs").nextTimerId + 1) 200 false
                (Handler.user 2)]
  ∧ (run (poll (poll (SocketPage initWorld "jobs") 100 (Handler.user 1)
        false false) 200 (Handler.user 2) false false)
        [Ev.tick (SocketPage initWorld "jobs").nextTimerId,
         Ev.tick ((SocketPage initWorld "jobs").nextTimerId + 1)]).trace
      = (poll (poll (SocketPage initWorld "jobs") 100 (Handler.user 1)
          false false) 200 (Handler.user 2) false false).trace ++ [1, 2] := by
  have h := c8_poll_stacks (SocketPage initWorld "jobs") 100 200 1 2
    false false false false
  exact ⟨h.1, h.2.2 rfl rfl (by decide)⟩

/-- Claim C3: `stopPoll` is not among the operations the SocketPage helper
assigns on a session's scope object, even though jobs.js calls
`page.stopPoll(jobsPollId)` and the specification lists it: the session does
not provide a stopPoll operation at all. -/
theorem c3_stopPoll_missing : "stopPoll" ∉ scopeMethods := by decide

/-- Witness for C4 on a concrete session with one timer and one tracked
listener: after cleanup the timer list is empty, the tracked binding is gone
from the shared connection, and a second cleanup is a no-op. -/
theorem c4_witness :
    (cleanup (scopeOn (poll (SocketPage initWorld "jobs") 100 (Handler.user 1)
        false true) "jobs_list" (Handler.user 2))).scope.timers = []
  ∧ ("jobs_list", Handler.user 2)
      ∉ (cleanup (scopeOn (poll (SocketPage initWorld "jobs") 100
          (Handler.user 1) false true) "jobs_list" (Handler.user 2))).sock.handlers
  ∧ cleanup (cleanup (scopeOn (poll (SocketPage initWorld "jobs") 100
        (Handler.user 1) false true) "jobs_list" (Handler.user 2)))
      = cleanup (scopeOn (poll (SocketPage initWorld "jobs") 100 (Handler.user 1)
          false true) "jobs_list" (Handler.user 2)) :=
  ⟨(c4_cleanup_idempotent (scopeOn (poll (SocketPage initWorld "jobs") 100
      (Handler.user 1) false true) "jobs_list" (Handler.user 2))).1,
   (c4_cleanup_idempotent (scopeOn (poll (SocketPage initWorld "jobs") 100
      (Handler.user 1) false true) "jobs_list" (Handler.user 2))).2.2.2.1
      ("jobs_list", Handler.user 2) (by decide),
   (c4_cleanup_idempotent (scopeOn (poll (SocketPage initWorld "jobs") 100
      (Handler.user 1) false true) "jobs_list" (Handler.user 2))).2.2.2.2⟩

end HPCWeb
